import Mathlib

/-!
Verification development for the AmyloIC50Pred single-page client
(src/app/page.jsx).  JavaScript strings are modelled as `List Char`;
spreadsheet cells are modelled after the `String(...)` coercion the code
applies to them, i.e. as strings.  Each definition below embeds one
function or expression of page.jsx; the source line it comes from is
named in its doc comment.
-/

/-! ## Generic string helpers (models of the JS string primitives used) -/

/-- The whitespace characters relevant to the inputs at hand; model of the
character class stripped by `String.prototype.trim`. -/
def isJsSpace (c : Char) : Bool := c = ' ' || c = '\t' || c = '\n' || c = '\r'

/-- Model of `String.prototype.trim`: drop leading and trailing whitespace. -/
def trimL (s : List Char) : List Char := (s.dropWhile isJsSpace).rdropWhile isJsSpace

/-- Model of `String.prototype.toLowerCase` (ASCII range, which covers every
string the page compares). -/
def toLowerL (s : List Char) : List Char := s.map Char.toLower

/-- Model of `String.prototype.startsWith`. -/
def startsWithL : List Char → List Char → Bool
  | _, [] => true
  | [], _ :: _ => false
  | h :: hs, n :: ns => h = n && startsWithL hs ns

/-- Model of `String.prototype.includes`: some suffix of the haystack starts
with the needle. -/
def includesL : List Char → List Char → Bool
  | [], needle => startsWithL [] needle
  | c :: t, needle => startsWithL (c :: t) needle || includesL t needle

/-- Model of `String.prototype.endsWith`. -/
def endsWithL (s suffix : List Char) : Bool := startsWithL s.reverse suffix.reverse

/-- Prepend a character onto the first piece of a split result. -/
def consHead (c : Char) : List (List Char) → List (List Char)
  | [] => [[c]]
  | t :: ts => (c :: t) :: ts

/-- Model of `split` on a single-character regex class: every character
satisfying `p` is a separator (used for `/[,;\t]/`). -/
def splitAny (p : Char → Bool) : List Char → List (List Char)
  | [] => [[]]
  | c :: cs => if p c then [] :: splitAny p cs else consHead c (splitAny p cs)

/-- Worker for `split` on a one-or-more regex class such as `/[\n,]+/`:
`skipping` is true while inside a separator run (so further separator
characters extend the run instead of producing empty pieces). -/
def srAux (p : Char → Bool) : Bool → List Char → List Char → List (List Char)
  | _, cur, [] => [cur.reverse]
  | skipping, cur, c :: cs =>
    if p c then
      if skipping then srAux p true [] cs
      else cur.reverse :: srAux p true [] cs
    else srAux p false (c :: cur) cs

/-- Model of `split` on a one-or-more character class regex (`/[\n,]+/`):
maximal runs of separator characters separate the pieces. -/
def splitRuns (p : Char → Bool) (cs : List Char) : List (List Char) :=
  srAux p false [] cs

/-- Model of `split(/\r?\n/)` (page.jsx line 153): `"\n"` or `"\r\n"`
separates lines; a lone `'\r'` is ordinary content. -/
def splitLinesL : List Char → List (List Char)
  | [] => [[]]
  | '\r' :: '\n' :: cs => [] :: splitLinesL cs
  | c :: cs => if c = '\n' then [] :: splitLinesL cs else consHead c (splitLinesL cs)

/-! ## Configuration and messages (page.jsx lines 12, 167, 182, 202, 214, 218) -/

/-- `const MAX_COMPOUNDS = 20` (page.jsx line 12). -/
def MAX_COMPOUNDS : Nat := 20

/-- Error message of page.jsx line 214. -/
def noInputMsg : List Char := ("No SMILES input. Enter in textarea or upload file.").data

/-- Error message of page.jsx line 218, parameterised by the list length. -/
def tooManyMsg (n : Nat) : List Char :=
  ("Max " ++ toString MAX_COMPOUNDS ++ " compounds allowed. You provided " ++ toString n ++ ".").data

/-- Error message of page.jsx line 202. -/
def noFileSmilesMsg : List Char :=
  ("No valid SMILES found in file. Check format (SMILES in first column, optional header).").data

/-- Error message thrown at page.jsx line 167 when the structured parse fails
and the line-splitting fallback is not applicable. -/
def csvError : List Char :=
  ("Could not parse file. Ensure SMILES are in the first column of a valid Excel (xlsx, xls) or CSV file.").data

/-- Error message of page.jsx line 182. -/
def invalidTypeMsg : List Char := ("Invalid file type. Please upload CSV, XLS, or XLSX.").data

/-! ## The free-text channel (page.jsx line 210) -/

/-- The separator class of the regex `/[\n,]+/` in
`textareaValue.split(/[\n,]+/)` (page.jsx line 210). -/
def isTextDelim (c : Char) : Bool := c = '\n' || c = ','

/-- The `.map(s => s.trim()).filter(s => s)` tail of the free-text pipeline:
trim each piece, keep the truthy (non-empty) ones. -/
def normTokens (ts : List (List Char)) : List (List Char) :=
  (ts.map trimL).filter (fun t => !t.isEmpty)

/-- `textareaValue.split(/[\n,]+/).map(s => s.trim()).filter(s => s)`
(page.jsx line 210). -/
def textSmiles (s : List Char) : List (List Char) :=
  normTokens (splitRuns isTextDelim s)

/-- Modelled from the spec's words "split raw text on newlines and commas,
trim each piece, drop empty pieces": splitting at every single newline or
comma, to be compared with the code's run-based split. -/
def textSmilesSpec (s : List Char) : List (List Char) :=
  normTokens (splitAny isTextDelim s)

/-! ## File parsing (`parseFileContent`, page.jsx lines 127-174) -/

/-- `firstRowFirstCell.includes("smiles") || ...("compound") || ...("molecule")`
(page.jsx lines 141 and 158). -/
def keywordHeader (cell : List Char) : Bool :=
  includesL cell (("smiles").data) || includesL cell (("compound").data) ||
    includesL cell (("molecule").data)

/-- `String(localJsonSheet[0][0] || "").trim().toLowerCase()` (page.jsx
line 139): first cell of the first row, with a missing or empty cell read
as the empty string. -/
def firstCellOfGrid (grid : List (List (List Char))) : List Char :=
  toLowerL (trimL ((grid.headD []).headD []))

/-- The header test of page.jsx lines 140-142: more than one row, first cell
contains a header keyword, and is under 50 characters long. -/
def structHeaderTest (grid : List (List (List Char))) : Bool :=
  decide (1 < grid.length) && keywordHeader (firstCellOfGrid grid) &&
    decide ((firstCellOfGrid grid).length < 50)

/-- `startIndex` as computed by page.jsx lines 138-144. -/
def structStartIndex (grid : List (List (List Char))) : Nat :=
  if structHeaderTest grid then 1 else 0

/-- The JS idiom `x ? String(x).trim() : ""` applied to a first-column value
(page.jsx lines 147 and 163): an absent or empty cell maps to the empty
string, anything else is trimmed. -/
def jsTrimOrEmpty (x : List Char) : List Char :=
  match x with
  | [] => []
  | c :: cs => trimL (c :: cs)

/-- The filter of page.jsx lines 148 and 164:
`s && s.length > 2 && !s.toLowerCase().includes("smiles") && !s.toLowerCase().includes("compound")`. -/
def keepSmilesL (s : List Char) : Bool :=
  !s.isEmpty && decide (2 < s.length) && !includesL (toLowerL s) (("smiles").data) &&
    !includesL (toLowerL s) (("compound").data)

/-- The structured-parse extraction of page.jsx lines 137-149, applied to the
grid `sheet_to_json` produced (cells modelled after their `String(...)`
coercion).  An empty grid leaves `smilesFromFile` as `[]`. -/
def extractStructured (grid : List (List (List Char))) : List (List Char) :=
  if 0 < grid.length then
    ((grid.drop (structStartIndex grid)).map (fun row => jsTrimOrEmpty (row.headD []))).filter
      keepSmilesL
  else []

/-- Modelled from the spec's words for step 7 of the Normalizer: "take the
first column's value, stringify, trim, and keep only non-empty values longer
than 2 characters whose lowercase form does not itself contain smiles or
compound". -/
def extractStructuredSpec (grid : List (List (List Char))) : List (List Char) :=
  ((grid.drop (structStartIndex grid)).map (fun row => trimL (row.headD []))).filter
    (fun s => !s.isEmpty && decide (2 < s.length) &&
      !includesL (toLowerL s) (("smiles").data) && !includesL (toLowerL s) (("compound").data))

/-- The separator class of `/[,;\t]/` (page.jsx lines 156 and 163). -/
def isFieldDelim (c : Char) : Bool := c = ',' || c = ';' || c = '\t'

/-- `row.split(/[,;\t]/)[0]` (page.jsx lines 156 and 163); `split` always
yields at least one piece. -/
def firstFieldL (row : List Char) : List Char := (splitAny isFieldDelim row).headD []

/-- `rows[0].split(/[,;\t]/)[0].trim().toLowerCase()` (page.jsx line 156). -/
def fallbackHeaderCell (rows : List (List Char)) : List Char :=
  toLowerL (trimL (firstFieldL (rows.headD [])))

/-- The header test of page.jsx lines 157-159 in the CSV fallback. -/
def fallbackHeaderTest (rows : List (List Char)) : Bool :=
  decide (1 < rows.length) && keywordHeader (fallbackHeaderCell rows) &&
    decide ((fallbackHeaderCell rows).length < 50)

/-- `startIndex` as computed by page.jsx lines 154-161. -/
def fallbackStartIndex (rows : List (List Char)) : Nat :=
  if fallbackHeaderTest rows then 1 else 0

/-- The body of the CSV fallback (page.jsx lines 155-165) on the line-split
rows. -/
def extractFromRows (rows : List (List Char)) : List (List Char) :=
  if 0 < rows.length then
    ((rows.drop (fallbackStartIndex rows)).map (fun row => jsTrimOrEmpty (firstFieldL row))).filter
      keepSmilesL
  else []

/-- The naive line-splitting fallback of page.jsx lines 152-165: split the
text on line breaks, take the first `/[,;\t]/`-field of each row, apply the
same header skip and filter. -/
def extractFallback (content : List Char) : List (List Char) :=
  extractFromRows (splitLinesL content)

/-- `fileName.toLowerCase().endsWith('.csv')` (page.jsx line 152). -/
def csvNamed (fileName : List Char) : Bool := endsWithL (toLowerL fileName) ((".csv").data)

/-- `isBinary` as computed by `readFileContent` (page.jsx line 115):
`!file.name.toLowerCase().endsWith('.csv') && file.type !== 'text/csv'`. -/
def readIsBinary (fileName mimeType : List Char) : Bool :=
  !csvNamed fileName && !decide (mimeType = ("text/csv").data)

/-- `parseFileContent` (page.jsx lines 127-174).  `structured` is the outcome
of the XLSX library call: `some grid` when `sheet_to_json` produced a grid,
`none` when anything in the `try` block threw (a library failure or the
"No sheets found" error, both of which land in the same `catch`). -/
def parseFileContentModel (structured : Option (List (List (List Char))))
    (isBinary : Bool) (fileName content : List Char) :
    Except (List Char) (List (List Char)) :=
  match structured with
  | some grid => .ok (extractStructured grid)
  | none =>
    if !isBinary && csvNamed fileName then .ok (extractFallback content)
    else .error csvError

/-! ## Submission (`handleSubmit`, page.jsx lines 193-240) -/

/-- Outcome of a submission attempt: either an inline input error shown
before any network activity, or the `fetch` call with its payload. -/
inductive SubmitOutcome where
  | inputErr : List Char → SubmitOutcome
  | callApi : List (List Char) → SubmitOutcome
deriving DecidableEq

/-- Whether the outcome reaches the external prediction service. -/
def contactsApi : SubmitOutcome → Bool
  | .inputErr _ => false
  | .callApi _ => true

/-- The count validation of page.jsx lines 213-220, followed by the `fetch`
of line 224: an empty list or one longer than `MAX_COMPOUNDS` aborts with an
inline message before the network call. -/
def validateSmiles (smiles : List (List Char)) : SubmitOutcome :=
  if smiles.length = 0 then .inputErr noInputMsg
  else if MAX_COMPOUNDS < smiles.length then .inputErr (tooManyMsg smiles.length)
  else .callApi smiles

/-- `error.message || "Failed to process file."` (page.jsx line 206). -/
def fileErrMsg (e : List Char) : List Char :=
  if e.isEmpty then ("Failed to process file.").data else e

/-- `handleSubmit` up to the network call (page.jsx lines 193-220):
`fileResult` is `some` the file-parse outcome when a file is selected, and
`none` when the textarea is the input channel. -/
def handleSubmitModel (fileResult : Option (Except (List Char) (List (List Char))))
    (textareaValue : List Char) : SubmitOutcome :=
  match fileResult with
  | some (.error e) => .inputErr (fileErrMsg e)
  | some (.ok l) =>
    if l.length = 0 then .inputErr noFileSmilesMsg else validateSmiles l
  | none =>
    if !(trimL textareaValue).isEmpty then validateSmiles (textSmiles textareaValue)
    else validateSmiles []

/-! ## Response handling (page.jsx lines 222-239) -/

/-- The decoded JSON response body, as far as the error-handling logic reads
it: only the presence and value of the string field `error` matters to the
panel logic (the rest of a successful body feeds the charts). -/
structure RespData where
  errorField : Option (List Char)
deriving DecidableEq

/-- The `results` state after a submission resolves. -/
inductive ResultsState where
  | errObj : List Char → ResultsState
  | dataObj : RespData → ResultsState
deriving DecidableEq

/-- JS `x || fallback` on an optional string: an absent or empty string is
falsy. -/
def jsOrStr (v : Option (List Char)) (fallback : List Char) : List Char :=
  match v with
  | some s => if s.isEmpty then fallback else s
  | none => fallback

/-- `` `Server Error: ${res.status}` `` (page.jsx line 231). -/
def serverErrorMsg (status : Nat) : List Char := ("Server Error: " ++ toString status).data

/-- `` `Network/Parsing Error: ${err.message}` `` (page.jsx line 236). -/
def networkErrorMsg (detail : List Char) : List Char :=
  ("Network/Parsing Error: ").data ++ detail

/-- Page.jsx lines 229-237: decode the body (`none` models a `res.json()`
rejection, whose message is `decodeFailDetail`), then branch on `res.ok`. -/
def handleResponse (resOk : Bool) (status : Nat) (decoded : Option RespData)
    (decodeFailDetail : List Char) : ResultsState :=
  match decoded with
  | none => .errObj (networkErrorMsg decodeFailDetail)
  | some d =>
    if resOk then .dataObj d
    else .errObj (jsOrStr d.errorField (serverErrorMsg status))

/-- The "API Error" panel (page.jsx lines 482-487) renders exactly when
`results.error` is truthy; its message is `results.error`. -/
def displayedPanel : ResultsState → Option (List Char)
  | .errObj m => if m.isEmpty then none else some m
  | .dataObj d =>
    match d.errorField with
    | some m => if m.isEmpty then none else some m
    | none => none

/-! ## UI state machine (input-source exclusivity, page.jsx lines 176-191,
242-247, 398-405) -/

/-- The selected file, as far as the handlers read it. -/
structure FileMeta where
  name : List Char
deriving DecidableEq

/-- `file.name.substring(file.name.lastIndexOf('.'))`: the suffix starting at
the last dot, or the whole name when there is none (JS `substring(-1)` is
`substring(0)`). -/
def fromLastDot : List Char → Option (List Char)
  | [] => none
  | c :: cs =>
    match fromLastDot cs with
    | some suf => some suf
    | none => if c = '.' then some (c :: cs) else none

/-- `fileExtension` as computed at page.jsx line 180. -/
def fileExtOf (name : List Char) : List Char :=
  toLowerL ((fromLastDot name).getD name)

/-- `const allowedTypes = ['.csv', '.xls', '.xlsx']` (page.jsx line 179). -/
def allowedTypes : List (List Char) := [(".csv").data, (".xls").data, (".xlsx").data]

/-- The view-state the input handlers touch. -/
structure UIState where
  textareaValue : List Char
  selectedFile : Option FileMeta
  fileName : List Char
  results : Option ResultsState
  inputError : List Char
deriving DecidableEq

/-- The initial state (page.jsx lines 30-35). -/
def uiInit : UIState :=
  { textareaValue := [], selectedFile := none, fileName := [], results := none, inputError := [] }

/-- The state-changing events: `handleFileChange` (lines 176-191), the
textarea `onChange` (line 403), `clearInputs` (lines 242-247), and the
`setResults`/`setInputError` writes of `handleSubmit`. -/
inductive UIEvent where
  | fileChange : Option FileMeta → UIEvent
  | textChange : List Char → UIEvent
  | clearAll : UIEvent
  | submitStart : UIEvent
  | submitReject : List Char → UIEvent
  | submitFinish : ResultsState → UIEvent

/-- The transition function: each arm performs exactly the `set...` calls of
the corresponding handler. -/
def uiStep (s : UIState) : UIEvent → UIState
  | .fileChange (some f) =>
    if !allowedTypes.contains (fileExtOf f.name) then
      { s with inputError := invalidTypeMsg, selectedFile := none, fileName := [] }
    else
      { s with selectedFile := some f, fileName := f.name, textareaValue := [],
               inputError := [], results := none }
  | .fileChange none => { s with selectedFile := none, fileName := [] }
  | .textChange v =>
    { s with textareaValue := v, selectedFile := none, fileName := [],
             inputError := [], results := none }
  | .clearAll =>
    { s with textareaValue := [], selectedFile := none, fileName := [],
             inputError := [], results := none }
  | .submitStart => { s with results := none, inputError := [] }
  | .submitReject msg => { s with inputError := msg }
  | .submitFinish r => { s with results := some r }

/-- States reachable from the initial state through the handlers. -/
inductive UIReachable : UIState → Prop where
  | init : UIReachable uiInit
  | next : ∀ {s : UIState} (e : UIEvent), UIReachable s → UIReachable (uiStep s e)

/-! ## CSV export (`escapeCSVField`, page.jsx lines 249-257) -/

/-- `stringField.replace(/"/g, '""')` (page.jsx line 253): every double quote
becomes two. -/
def replaceQuotesL : List Char → List Char
  | [] => []
  | c :: cs => if c = '"' then '"' :: '"' :: replaceQuotesL cs else c :: replaceQuotesL cs

/-- The test of page.jsx line 252: the field contains a comma, a double
quote, a newline or a carriage return. -/
def needsQuoting (s : List Char) : Bool :=
  s.contains ',' || s.contains '"' || s.contains '\n' || s.contains '\r'

/-- `escapeCSVField` (page.jsx lines 249-257) on a stringified field. -/
def escapeCSVField (s : List Char) : List Char :=
  if needsQuoting s then '"' :: (replaceQuotesL s ++ ['"']) else s

/-- Modelled from the spec's words "fields containing comma/quote/newline are
wrapped in quotes with internal quotes doubled": the doubling written as a
fold, independently of the code's `replace`. -/
def escapeCSVFieldSpec (s : List Char) : List Char :=
  if needsQuoting s then
    '"' :: (s.foldr (fun c acc => if c = '"' then '"' :: '"' :: acc else c :: acc) [] ++ ['"'])
  else s

/-! ## Basic lemmas about the string helpers -/

theorem jsTrimOrEmpty_eq_trimL (x : List Char) : jsTrimOrEmpty x = trimL x := by
  cases x <;> rfl

theorem trimL_cons_of_space {c : Char} (hc : isJsSpace c = true) (t : List Char) :
    trimL (c :: t) = trimL t := by
  simp [trimL, List.dropWhile_cons_of_pos hc]

theorem trimL_concat_of_space {c : Char} (hc : isJsSpace c = true) (t : List Char) :
    trimL (t ++ [c]) = trimL t := by
  unfold trimL
  rcases h : t.dropWhile isJsSpace with _ | ⟨x, xs⟩
  · have hall : ∀ a ∈ t, isJsSpace a = true := List.dropWhile_eq_nil_iff.mp h
    have h2 : (t ++ [c]).dropWhile isJsSpace = [] := by
      rw [List.dropWhile_eq_nil_iff]
      intro a ha
      rcases List.mem_append.mp ha with h' | h'
      · exact hall a h'
      · rw [List.mem_singleton.mp h']; exact hc
    rw [h2]
  · have h2 : (t ++ [c]).dropWhile isJsSpace = (x :: xs) ++ [c] := by
      rw [List.dropWhile_append, h]; rfl
    rw [h2, List.rdropWhile_concat_pos _ _ _ hc]

theorem dropWhile_head_false {α} (q : α → Bool) :
    ∀ (l : List α) {d : α} {b : List α}, l.dropWhile q = d :: b → q d = false := by
  intro l
  induction l with
  | nil => intro d b h; exact List.noConfusion h
  | cons c t ih =>
    intro d b h
    by_cases hc : q c = true
    · rw [List.dropWhile_cons_of_pos hc] at h
      exact ih h
    · rw [List.dropWhile_cons_of_neg hc] at h
      injection h with h1 _
      rw [← h1]
      exact Bool.eq_false_iff.mpr hc

theorem trimL_idem (l : List Char) : trimL (trimL l) = trimL l := by
  unfold trimL
  have hpre : (l.dropWhile isJsSpace).rdropWhile isJsSpace <+: l.dropWhile isJsSpace :=
    List.rdropWhile_prefix _ _
  have hidem := List.rdropWhile_idempotent isJsSpace (l.dropWhile isJsSpace)
  rcases hY : (l.dropWhile isJsSpace).rdropWhile isJsSpace with _ | ⟨y, ys⟩
  · rfl
  · rw [hY] at hpre hidem
    obtain ⟨tl, htl⟩ := hpre
    have hy : isJsSpace y = false := dropWhile_head_false isJsSpace l htl.symm
    rw [List.dropWhile_cons_of_neg (by simp [hy])]
    exact hidem

theorem startsWithL_nil_needle (h : List Char) : startsWithL h [] = true := by
  cases h <;> rfl

theorem startsWithL_append_self (a b : List Char) : startsWithL (a ++ b) a = true := by
  induction a with
  | nil => exact startsWithL_nil_needle b
  | cons c a ih => simp [startsWithL, ih]

/-! ## Lemmas about the submission gate -/

theorem validateSmiles_callApi_inv {x l : List (List Char)}
    (h : validateSmiles x = SubmitOutcome.callApi l) : l = x := by
  unfold validateSmiles at h
  split at h
  · exact SubmitOutcome.noConfusion h
  · split at h
    · exact SubmitOutcome.noConfusion h
    · injection h with h'; exact h'.symm

/-- C1: the external prediction service is contacted exactly when the
assembled Candidate List is non-empty and has at most `MAX_COMPOUNDS` (20)
entries; an empty list aborts with the no-input message and a list of more
than 20 entries aborts with the message stating the limit and the actual
count — in both cases the outcome is an `inputErr`, which never reaches the
`fetch` call. -/
theorem claim_C1 (l : List (List Char)) :
    (contactsApi (validateSmiles l) = true ↔ 0 < l.length ∧ l.length ≤ MAX_COMPOUNDS)
    ∧ (l = [] → validateSmiles l = .inputErr noInputMsg)
    ∧ (MAX_COMPOUNDS < l.length → validateSmiles l = .inputErr (tooManyMsg l.length)) := by
  refine ⟨?_, ?_, ?_⟩
  · unfold validateSmiles
    by_cases h0 : l.length = 0
    · simp [h0, contactsApi]
    · by_cases h1 : MAX_COMPOUNDS < l.length
      · simp [h0, h1, contactsApi]
      · simp [h0, h1, contactsApi]; omega
  · intro h; simp [validateSmiles, h]
  · intro h
    have h0 : ¬l.length = 0 := by omega
    simp [validateSmiles, h0, h]

theorem claim_C1_witness :
    validateSmiles [] = .inputErr noInputMsg
    ∧ validateSmiles (List.replicate 21 (("CCC").data)) = .inputErr (tooManyMsg 21) := by
  refine ⟨(claim_C1 []).2.1 rfl, ?_⟩
  have h := (claim_C1 (List.replicate 21 (("CCC").data))).2.2 (by simp [MAX_COMPOUNDS])
  simpa using h

/-! ## C9: CSV field escaping -/

theorem replaceQuotesL_eq_foldr (s : List Char) :
    replaceQuotesL s
      = s.foldr (fun c acc => if c = '"' then '"' :: '"' :: acc else c :: acc) [] := by
  induction s with
  | nil => rfl
  | cons c cs ih => simp only [replaceQuotesL, List.foldr_cons, ih]

/-- C9: a field containing a comma, double quote, newline or carriage return
is emitted wrapped in double quotes with every internal double quote
doubled, and any other field is emitted unchanged; in particular `C,C` is
emitted as `"C,C"`. -/
theorem claim_C9 :
    (∀ s, escapeCSVField s = escapeCSVFieldSpec s)
    ∧ escapeCSVField (("C,C").data) = (("\"C,C\"").data) := by
  refine ⟨?_, by decide⟩
  intro s
  simp only [escapeCSVField, escapeCSVFieldSpec, replaceQuotesL_eq_foldr]

/-! ## C3: the structured-parse extraction -/

/-- C3: the file-derived Candidate List is exactly the first-column values of
the (possibly header-skipped) rows, stringified and trimmed, keeping in
order the non-empty values longer than 2 characters whose lowercase form
contains neither "smiles" nor "compound"; every extracted entry has length
greater than 2, and in particular the cell "C" is excluded. -/
theorem claim_C3 :
    (∀ grid, extractStructured grid = extractStructuredSpec grid)
    ∧ (∀ grid s, s ∈ extractStructured grid → 2 < s.length)
    ∧ extractStructured [[("CCCC").data], [("C").data]] = [("CCCC").data] := by
  refine ⟨?_, ?_, by decide⟩
  · intro grid
    rcases grid with _ | ⟨r, rs⟩
    · rfl
    · unfold extractStructured extractStructuredSpec
      rw [if_pos (by simp)]
      simp only [jsTrimOrEmpty_eq_trimL]
      rfl
  · intro grid s hs
    unfold extractStructured at hs
    by_cases hg : 0 < grid.length
    · rw [if_pos hg] at hs
      have hp := List.of_mem_filter hs
      unfold keepSmilesL at hp
      simp only [Bool.and_eq_true, decide_eq_true_eq] at hp
      exact hp.1.1.2
    · rw [if_neg hg] at hs
      exact absurd hs (List.not_mem_nil s)

/-! ## C4: the fallback policy when the structured parse fails -/

/-- C4: when the structured parse fails (`structured = none`), a file whose
name ends in ".csv" (case-insensitively) falls back to the naive
line-splitting extraction, and any other file fails with the descriptive
parse error naming the accepted formats (xlsx, xls, CSV) — with no further
fallback.  `readIsBinary` is the flag `readFileContent` computed for the
same file. -/
theorem claim_C4 (fileName mimeType content : List Char) :
    (csvNamed fileName = true →
      parseFileContentModel none (readIsBinary fileName mimeType) fileName content
        = .ok (extractFallback content))
    ∧ (csvNamed fileName = false →
      parseFileContentModel none (readIsBinary fileName mimeType) fileName content
        = .error csvError)
    ∧ includesL csvError (("xlsx").data) = true
    ∧ includesL csvError (("xls").data) = true
    ∧ includesL csvError (("CSV").data) = true := by
  refine ⟨?_, ?_, by decide, by decide, by decide⟩
  · intro h
    simp [parseFileContentModel, readIsBinary, h]
  · intro h
    simp [parseFileContentModel, readIsBinary, h]

theorem claim_C4_witness :
    parseFileContentModel none (readIsBinary (("data.csv").data) (("text/csv").data))
        (("data.csv").data) (("CCO\nCCC").data)
      = .ok (extractFallback (("CCO\nCCC").data))
    ∧ parseFileContentModel none (readIsBinary (("data.xlsx").data) [])
        (("data.xlsx").data) (("x").data)
      = .error csvError :=
  ⟨(claim_C4 _ _ _).1 (by decide), (claim_C4 _ _ _).2.1 (by decide)⟩

/-! ## C2: header detection in the structured path -/

/-- C2 counterexample: the grid with first row "compound" and data row "CCCC"
has its first row skipped (start index 1) although the first cell does not
contain "smiles" — so first-cell length under 50 together with containing
"smiles" is not necessary for the skip, refuting the claim's parenthetical
necessity statement. -/
theorem claim_C2_cex :
    structStartIndex [[("compound").data], [("CCCC").data]] = 1
    ∧ includesL (firstCellOfGrid [[("compound").data], [("CCCC").data]]) (("smiles").data)
        = false := by decide

/-- C2 (amended): the first row is skipped if and only if the grid has more
than one row and its first cell, trimmed and lowercased, contains one of
"smiles", "compound", "molecule" and is shorter than 50 characters; a CSV
grid with header row "SMILES" followed by 3 data rows yields exactly those
3 candidates, and the same grid without the header yields the same 3. -/
theorem claim_C2_amended :
    (∀ grid : List (List (List Char)),
      structStartIndex grid = 1 ↔
        (1 < grid.length ∧ keywordHeader (firstCellOfGrid grid) = true ∧
          (firstCellOfGrid grid).length < 50))
    ∧ extractStructured [[("SMILES").data], [("CCO").data], [("CCC").data], [("CNC").data]]
        = [("CCO").data, ("CCC").data, ("CNC").data]
    ∧ extractStructured [[("CCO").data], [("CCC").data], [("CNC").data]]
        = [("CCO").data, ("CCC").data, ("CNC").data] := by
  refine ⟨?_, by decide, by decide⟩
  intro grid
  unfold structStartIndex
  by_cases h : structHeaderTest grid = true
  · rw [if_pos h]
    unfold structHeaderTest at h
    simp only [Bool.and_eq_true, decide_eq_true_eq] at h
    simp [h.1.1, h.1.2, h.2]
  · rw [if_neg h]
    unfold structHeaderTest at h
    constructor
    · intro h0; exact absurd h0 (by decide)
    · rintro ⟨h1, h2, h3⟩
      exact absurd (by simp [h1, h2, h3]) h

/-! ## C7: service-response handling -/

/-- C7 counterexample: a non-2xx response whose JSON body is the error object
with the empty-string message displays the fallback "Server Error: 400"
panel, not the empty message itself — so the displayed message is not
always exactly the body's `error` value. -/
theorem claim_C7_cex :
    handleResponse false 400 (some { errorField := some [] }) []
      = .errObj (serverErrorMsg 400)
    ∧ displayedPanel (handleResponse false 400 (some { errorField := some [] }) [])
        = some (serverErrorMsg 400)
    ∧ serverErrorMsg 400 ≠ [] := by decide

/-- C7 (amended): a non-2xx response whose JSON body is the error object with
a non-empty message m displays the API-error panel with exactly m; with an
empty m the panel shows the generic "Server Error: status" fallback; and a
response whose body fails JSON decoding produces the "Network/Parsing
Error: ..." message rather than a silent failure or crash. -/
theorem claim_C7_amended :
    (∀ (status : Nat) (m d : List Char), m ≠ [] →
      handleResponse false status (some { errorField := some m }) d = .errObj m
      ∧ displayedPanel (handleResponse false status (some { errorField := some m }) d)
          = some m)
    ∧ (∀ (status : Nat) (d : List Char),
      handleResponse false status (some { errorField := some [] }) d
        = .errObj (serverErrorMsg status))
    ∧ (∀ (resOk : Bool) (status : Nat) (d : List Char),
      handleResponse resOk status none d = .errObj (networkErrorMsg d)
      ∧ startsWithL (networkErrorMsg d) (("Network/Parsing Error").data) = true) := by
  refine ⟨?_, ?_, ?_⟩
  · intro status m d hm
    have hne : m.isEmpty = false := by
      cases m with
      | nil => exact absurd rfl hm
      | cons _ _ => rfl
    constructor
    · simp [handleResponse, jsOrStr, hne]
    · simp [handleResponse, displayedPanel, jsOrStr, hne]
  · intro status d
    simp [handleResponse, jsOrStr]
  · intro resOk status d
    refine ⟨rfl, ?_⟩
    unfold networkErrorMsg
    have h : (("Network/Parsing Error: ").data : List Char)
        = ("Network/Parsing Error").data ++ ((": ").data) := by decide
    rw [h, List.append_assoc]
    exact startsWithL_append_self _ _

theorem claim_C7_witness :
    handleResponse false 400 (some { errorField := some (("bad request").data) }) []
      = .errObj (("bad request").data) :=
  ((claim_C7_amended.1 400 (("bad request").data) []) (by decide)).1

/-! ## C8: input-source exclusivity -/

/-- C8: in every reachable state a selected file and non-empty free text
never coexist (exactly one channel is the active input source); selecting a
valid file clears the free text, the input error and the result set while
recording the file, and entering free text clears the selected file, the
input error and the result set. -/
theorem claim_C8 :
    (∀ s, UIReachable s → ¬(s.selectedFile.isSome = true ∧ s.textareaValue ≠ []))
    ∧ (∀ s f, allowedTypes.contains (fileExtOf f.name) = true →
        uiStep s (.fileChange (some f)) =
          { s with selectedFile := some f, fileName := f.name, textareaValue := [],
                   inputError := [], results := none })
    ∧ (∀ s v, uiStep s (.textChange v) =
        { s with textareaValue := v, selectedFile := none, fileName := [],
                 inputError := [], results := none }) := by
  refine ⟨?_, ?_, ?_⟩
  · have inv : ∀ s, UIReachable s → (s.selectedFile.isSome = true → s.textareaValue = []) := by
      intro s hs
      induction hs with
      | init => intro h; simp [uiInit] at h
      | next e _ ih =>
        cases e with
        | fileChange of =>
          cases of with
          | none => intro h; simp [uiStep] at h
          | some f =>
            intro h
            by_cases hf : fileExtOf f.name ∈ allowedTypes
            · simp [uiStep, hf]
            · simp [uiStep, hf] at h
        | textChange v => intro h; simp [uiStep] at h
        | clearAll => intro _; simp [uiStep]
        | submitStart => intro h; simp [uiStep] at h ⊢; exact ih h
        | submitReject m => intro h; simp [uiStep] at h ⊢; exact ih h
        | submitFinish r => intro h; simp [uiStep] at h ⊢; exact ih h
    intro s hs hand
    exact hand.2 (inv s hs hand.1)
  · intro s f hf
    have hf' : fileExtOf f.name ∈ allowedTypes := by simpa using hf
    simp [uiStep, hf']
  · intro s v
    rfl

theorem claim_C8_witness :
    uiStep uiInit (.fileChange (some { name := ("a.csv").data })) =
      { uiInit with selectedFile := some { name := ("a.csv").data },
                    fileName := ("a.csv").data, textareaValue := [],
                    inputError := [], results := none } :=
  claim_C8.2.1 uiInit { name := ("a.csv").data } (by decide)

/-! ## C6: shape of the entries at submission time -/

theorem mem_keepFilter {α} (f : α → List Char) (rows : List α) {s : List Char}
    (hs : s ∈ (rows.map (fun r => jsTrimOrEmpty (f r))).filter keepSmilesL) :
    2 < s.length ∧ s ≠ [] ∧ trimL s = s := by
  have hp := List.of_mem_filter hs
  have hm := List.mem_of_mem_filter hs
  obtain ⟨r, _, hr⟩ := List.mem_map.mp hm
  unfold keepSmilesL at hp
  simp only [Bool.and_eq_true, decide_eq_true_eq] at hp
  refine ⟨hp.1.1.2, ?_, ?_⟩
  · intro h
    rw [h] at hp
    simp at hp
  · rw [← hr, jsTrimOrEmpty_eq_trimL]
    exact trimL_idem _

theorem mem_textSmiles_trimmed {ta s : List Char} (hs : s ∈ textSmiles ta) :
    s ≠ [] ∧ trimL s = s := by
  unfold textSmiles normTokens at hs
  have hp := List.of_mem_filter hs
  have hm := List.mem_of_mem_filter hs
  obtain ⟨t, _, ht⟩ := List.mem_map.mp hm
  constructor
  · intro h
    rw [h] at hp
    simp at hp
  · rw [← ht]
    exact trimL_idem t

/-- C6 counterexample: the free-text submission "CC" reaches the network call
with the Candidate List ["CC"], whose single entry has length 2 — so not
every entry at submission time has length greater than 2. -/
theorem claim_C6_cex :
    handleSubmitModel none (("CC").data) = .callApi [("CC").data]
    ∧ (("CC").data).length = 2 := by decide

/-- C6 (amended): at submission time every entry of the Candidate List is a
trimmed non-empty string; entries assembled from an uploaded file
additionally have length greater than 2, but entries from the free-text
channel may be as short as one character. -/
theorem claim_C6_amended :
    (∀ ta l, handleSubmitModel none ta = .callApi l → ∀ s ∈ l, s ≠ [] ∧ trimL s = s)
    ∧ (∀ structured isBinary fileName content l,
        parseFileContentModel structured isBinary fileName content = .ok l →
        ∀ s ∈ l, 2 < s.length ∧ s ≠ [] ∧ trimL s = s) := by
  constructor
  · intro ta l h s hs
    simp only [handleSubmitModel] at h
    split at h
    · rw [validateSmiles_callApi_inv h] at hs
      exact mem_textSmiles_trimmed hs
    · rw [validateSmiles_callApi_inv h] at hs
      exact absurd hs (List.not_mem_nil s)
  · intro structured isBinary fileName content l h s hs
    cases structured with
    | some grid =>
      simp only [parseFileContentModel, Except.ok.injEq] at h
      rw [← h] at hs
      unfold extractStructured at hs
      split at hs
      · exact mem_keepFilter _ _ hs
      · exact absurd hs (List.not_mem_nil s)
    | none =>
      simp only [parseFileContentModel] at h
      split at h
      · simp only [Except.ok.injEq] at h
        rw [← h] at hs
        unfold extractFallback extractFromRows at hs
        split at hs
        · exact mem_keepFilter _ _ hs
        · exact absurd hs (List.not_mem_nil s)
      · exact Except.noConfusion h

theorem claim_C6_amended_witness :
    ("CCO").data ≠ [] ∧ trimL (("CCO").data) = ("CCO").data :=
  claim_C6_amended.1 (("CCO").data) [("CCO").data] (by decide) (("CCO").data)
    (List.mem_singleton.mpr rfl)

/-! ## C10: the fallback extraction refines the structured one -/

/-- C10: the CSV line-splitting fallback applies the same header-detection
rule and the same per-value filter as the structured path, so whenever the
first column seen by the structured parse coincides with the first
`/[,;\t]/`-field of each line of the raw text, the two paths extract the
same Candidate List. -/
theorem claim_C10 (grid : List (List (List Char))) (content : List Char)
    (hcol : grid.map (fun r => r.headD []) = (splitLinesL content).map firstFieldL) :
    extractStructured grid = extractFallback content := by
  have hlen : grid.length = (splitLinesL content).length := by
    have h := congrArg List.length hcol
    simpa using h
  unfold extractStructured extractFallback extractFromRows
  by_cases h0 : 0 < grid.length
  · have h0' : 0 < (splitLinesL content).length := by omega
    rw [if_pos h0, if_pos h0']
    have hcell : (grid.headD []).headD [] = firstFieldL ((splitLinesL content).headD []) := by
      rcases hg : grid with _ | ⟨g0, gs⟩
      · rw [hg] at h0; simp at h0
      · rcases hr : splitLinesL content with _ | ⟨r0, rs⟩
        · rw [hg, hr] at hlen; simp at hlen
        · rw [hg, hr] at hcol
          simp only [List.map_cons, List.cons.injEq] at hcol
          simpa using hcol.1
    have hheader : firstCellOfGrid grid = fallbackHeaderCell (splitLinesL content) := by
      unfold firstCellOfGrid fallbackHeaderCell
      rw [hcell]
    have hstart : structStartIndex grid = fallbackStartIndex (splitLinesL content) := by
      unfold structStartIndex fallbackStartIndex structHeaderTest fallbackHeaderTest
      rw [hheader, hlen]
    have hmap : (grid.drop (structStartIndex grid)).map (fun row => jsTrimOrEmpty (row.headD []))
        = ((splitLinesL content).drop (fallbackStartIndex (splitLinesL content))).map
            (fun row => jsTrimOrEmpty (firstFieldL row)) := by
      rw [hstart]
      have h := congrArg
        (fun l => (l.drop (fallbackStartIndex (splitLinesL content))).map jsTrimOrEmpty) hcol
      simpa only [← List.map_drop, List.map_map, Function.comp_def] using h
    rw [hmap]
  · have h0' : ¬0 < (splitLinesL content).length := by omega
    rw [if_neg h0, if_neg h0']

/-! ## C5: lemmas about the run-based splitter -/

theorem srAux_skip_eq (p : Char → Bool) :
    ∀ cs, srAux p true [] cs = srAux p false [] (cs.dropWhile p) := by
  intro cs
  induction cs with
  | nil => rfl
  | cons c cs ih =>
    by_cases hc : p c = true
    · rw [List.dropWhile_cons_of_pos hc]
      simp only [srAux, hc, if_true]
      exact ih
    · rw [List.dropWhile_cons_of_neg hc]
      simp [srAux, hc]

theorem srAux_no_delim (p : Char → Bool) :
    ∀ (cs cur : List Char), (∀ c ∈ cs, p c = false) →
      srAux p false cur cs = [cur.reverse ++ cs] := by
  intro cs
  induction cs with
  | nil => intro cur _; simp [srAux]
  | cons c cs ih =>
    intro cur hall
    have hc : p c = false := hall c (List.mem_cons_self c cs)
    simp only [srAux, hc]
    rw [ih (c :: cur) (fun x hx => hall x (List.mem_cons_of_mem c hx))]
    simp

theorem srAux_append_delim (p : Char → Bool) :
    ∀ (a cur : List Char) (d : Char) (b : List Char),
      (∀ c ∈ a, p c = false) → p d = true →
      srAux p false cur (a ++ d :: b) = (cur.reverse ++ a) :: srAux p true [] b := by
  intro a
  induction a with
  | nil =>
    intro cur d b _ hd
    simp [srAux, hd]
  | cons x a ih =>
    intro cur d b hall hd
    have hx : p x = false := hall x (List.mem_cons_self x a)
    have hstep : srAux p false cur ((x :: a) ++ d :: b)
        = srAux p false (x :: cur) (a ++ d :: b) := by
      simp [srAux, hx]
    rw [hstep, ih (x :: cur) d b (fun c hc => hall c (List.mem_cons_of_mem x hc)) hd]
    simp

theorem splitRuns_no_delim (p : Char → Bool) (cs : List Char)
    (h : ∀ c ∈ cs, p c = false) : splitRuns p cs = [cs] := by
  unfold splitRuns
  rw [srAux_no_delim p cs [] h]
  rfl

theorem splitRuns_append_delim (p : Char → Bool) (a : List Char) (d : Char) (b : List Char)
    (ha : ∀ c ∈ a, p c = false) (hd : p d = true) :
    splitRuns p (a ++ d :: b) = a :: splitRuns p (b.dropWhile p) := by
  unfold splitRuns
  rw [srAux_append_delim p a [] d b ha hd, srAux_skip_eq]
  simp

theorem delim_decomp (p : Char → Bool) (cs : List Char) :
    (∀ c ∈ cs, p c = false) ∨
      ∃ a d b, cs = a ++ d :: b ∧ (∀ c ∈ a, p c = false) ∧ p d = true := by
  rcases h : cs.dropWhile (fun c => !p c) with _ | ⟨d, b⟩
  · left
    intro c hc
    have := List.dropWhile_eq_nil_iff.mp h c hc
    simpa using this
  · right
    refine ⟨cs.takeWhile (fun c => !p c), d, b, ?_, ?_, ?_⟩
    · conv_lhs => rw [← List.takeWhile_append_dropWhile (fun c => !p c) cs]
      rw [h]
    · intro c hc
      have := List.mem_takeWhile_imp hc
      simpa using this
    · have := dropWhile_head_false (fun c => !p c) cs h
      simpa using this

theorem normTokens_cons (t : List Char) (ts : List (List Char)) :
    normTokens (t :: ts)
      = if (trimL t).isEmpty then normTokens ts else trimL t :: normTokens ts := by
  simp only [normTokens, List.map_cons, List.filter_cons]
  rcases h : (trimL t).isEmpty with _ | _ <;> simp [h]

theorem textSmiles_dropWhile (cs : List Char) :
    textSmiles (cs.dropWhile isTextDelim) = textSmiles cs := by
  rcases cs with _ | ⟨c, cs⟩
  · rfl
  · by_cases hc : isTextDelim c = true
    · rw [List.dropWhile_cons_of_pos hc]
      have h2 := splitRuns_append_delim isTextDelim [] c cs (by simp) hc
      simp only [List.nil_append] at h2
      unfold textSmiles
      rw [h2, normTokens_cons]
      simp [trimL]
    · rw [List.dropWhile_cons_of_neg hc]

theorem textSmiles_cons_delim {c : Char} (hc : isTextDelim c = true) (cs : List Char) :
    textSmiles (c :: cs) = textSmiles cs := by
  have h2 := splitRuns_append_delim isTextDelim [] c cs (by simp) hc
  simp only [List.nil_append] at h2
  unfold textSmiles
  rw [h2, normTokens_cons]
  have hfin : textSmiles (cs.dropWhile isTextDelim) = textSmiles cs := textSmiles_dropWhile cs
  unfold textSmiles at hfin
  rw [if_pos (by rfl), hfin]

theorem splitRuns_cons_not_delim (p : Char → Bool) {c : Char} (hc : p c = false)
    (cs : List Char) :
    ∃ t ts, splitRuns p cs = t :: ts ∧ splitRuns p (c :: cs) = (c :: t) :: ts := by
  rcases delim_decomp p cs with hall | ⟨a, d, b, hcs, ha, hd⟩
  · refine ⟨cs, [], splitRuns_no_delim p cs hall, ?_⟩
    have h2 : ∀ x ∈ c :: cs, p x = false := by
      intro x hx
      rcases List.mem_cons.mp hx with h | h
      · rw [h]; exact hc
      · exact hall x h
    exact splitRuns_no_delim p (c :: cs) h2
  · subst hcs
    refine ⟨a, splitRuns p (b.dropWhile p), splitRuns_append_delim p a d b ha hd, ?_⟩
    have h2 : ∀ x ∈ c :: a, p x = false := by
      intro x hx
      rcases List.mem_cons.mp hx with h | h
      · rw [h]; exact hc
      · exact ha x h
    have h3 := splitRuns_append_delim p (c :: a) d b h2 hd
    simpa using h3

theorem textSmiles_cons_space {c : Char} (hsp : isJsSpace c = true) (cs : List Char) :
    textSmiles (c :: cs) = textSmiles cs := by
  by_cases hc : isTextDelim c = true
  · exact textSmiles_cons_delim hc cs
  · obtain ⟨t, ts, h1, h2⟩ :=
      splitRuns_cons_not_delim isTextDelim (Bool.eq_false_iff.mpr hc) cs
    unfold textSmiles
    rw [h1, h2, normTokens_cons, normTokens_cons, trimL_cons_of_space hsp]

theorem textSmiles_ws_prefix : ∀ (w : List Char), w.all isJsSpace = true →
    ∀ cs, textSmiles (w ++ cs) = textSmiles cs := by
  intro w
  induction w with
  | nil => intro _ cs; rfl
  | cons c w ih =>
    intro hw cs
    simp only [List.all_cons, Bool.and_eq_true] at hw
    rw [List.cons_append, textSmiles_cons_space hw.1 (w ++ cs)]
    exact ih hw.2 cs

theorem normTokens_nil_single : normTokens [([] : List Char)] = [] := rfl

theorem textSmiles_concat_space {c : Char} (hsp : isJsSpace c = true) :
    ∀ (n : Nat) (cs : List Char), cs.length ≤ n →
      textSmiles (cs ++ [c]) = textSmiles cs := by
  intro n
  induction n with
  | zero =>
    intro cs hlen
    have h : cs = [] := List.length_eq_zero.mp (Nat.le_zero.mp hlen)
    subst h
    simp only [List.nil_append]
    exact textSmiles_cons_space hsp []
  | succ n ih =>
    intro cs hlen
    rcases delim_decomp isTextDelim cs with hall | ⟨a, d, b, hcs, ha, hd⟩
    · by_cases hc : isTextDelim c = true
      · unfold textSmiles
        rw [show cs ++ [c] = cs ++ c :: [] from rfl,
            splitRuns_append_delim isTextDelim cs c [] hall hc,
            splitRuns_no_delim isTextDelim cs hall,
            normTokens_cons, normTokens_cons]
        rfl
      · have hall2 : ∀ x ∈ cs ++ [c], isTextDelim x = false := by
          intro x hx
          rcases List.mem_append.mp hx with h | h
          · exact hall x h
          · rw [List.mem_singleton.mp h]; exact Bool.eq_false_iff.mpr hc
        unfold textSmiles
        rw [splitRuns_no_delim isTextDelim (cs ++ [c]) hall2,
            splitRuns_no_delim isTextDelim cs hall,
            normTokens_cons, normTokens_cons, trimL_concat_of_space hsp]
    · subst hcs
      have hb : b.length ≤ n := by
        simp only [List.length_append, List.length_cons] at hlen
        omega
      have h2 : (a ++ d :: b) ++ [c] = a ++ d :: (b ++ [c]) := by simp
      unfold textSmiles
      rw [h2, splitRuns_append_delim isTextDelim a d (b ++ [c]) ha hd,
          splitRuns_append_delim isTextDelim a d b ha hd,
          normTokens_cons, normTokens_cons]
      have key : normTokens (splitRuns isTextDelim ((b ++ [c]).dropWhile isTextDelim))
          = normTokens (splitRuns isTextDelim (b.dropWhile isTextDelim)) := by
        have k1 : textSmiles ((b ++ [c]).dropWhile isTextDelim) = textSmiles (b ++ [c]) :=
          textSmiles_dropWhile _
        have k2 : textSmiles (b.dropWhile isTextDelim) = textSmiles b :=
          textSmiles_dropWhile _
        have k3 : textSmiles (b ++ [c]) = textSmiles b := ih b hb
        exact k1.trans (k3.trans k2.symm)
      rw [key]

theorem textSmiles_ws_suffix : ∀ (w : List Char), w.all isJsSpace = true →
    ∀ cs, textSmiles (cs ++ w) = textSmiles cs := by
  intro w
  induction w with
  | nil => intro _ cs; simp
  | cons c w ih =>
    intro hw cs
    simp only [List.all_cons, Bool.and_eq_true] at hw
    have h : cs ++ c :: w = (cs ++ [c]) ++ w := by simp
    rw [h, ih hw.2 (cs ++ [c]),
        textSmiles_concat_space hw.1 cs.length cs (Nat.le_refl _)]

theorem splitRuns_delim_swap (p : Char → Bool) (d1 d2 : Char)
    (hd1 : p d1 = true) (hd2 : p d2 = true) :
    ∀ (n : Nat) (a b : List Char), a.length ≤ n →
      splitRuns p (a ++ d1 :: b) = splitRuns p (a ++ d2 :: b) := by
  intro n
  induction n with
  | zero =>
    intro a b hlen
    have h : a = [] := List.length_eq_zero.mp (Nat.le_zero.mp hlen)
    subst h
    rw [splitRuns_append_delim p [] d1 b (by simp) hd1,
        splitRuns_append_delim p [] d2 b (by simp) hd2]
  | succ n ih =>
    intro a b hlen
    rcases delim_decomp p a with hall | ⟨a0, e, a1, ha, ha0, he⟩
    · rw [splitRuns_append_delim p a d1 b hall hd1,
          splitRuns_append_delim p a d2 b hall hd2]
    · subst ha
      have e1 : (a0 ++ e :: a1) ++ d1 :: b = a0 ++ e :: (a1 ++ d1 :: b) := by simp
      have e2 : (a0 ++ e :: a1) ++ d2 :: b = a0 ++ e :: (a1 ++ d2 :: b) := by simp
      rw [e1, e2,
          splitRuns_append_delim p a0 e (a1 ++ d1 :: b) ha0 he,
          splitRuns_append_delim p a0 e (a1 ++ d2 :: b) ha0 he]
      congr 1
      rcases hdw : a1.dropWhile p with _ | ⟨z, zs⟩
      · have g1 : (a1 ++ d1 :: b).dropWhile p = b.dropWhile p := by
          rw [List.dropWhile_append, hdw]
          simp [List.dropWhile_cons_of_pos hd1]
        have g2 : (a1 ++ d2 :: b).dropWhile p = b.dropWhile p := by
          rw [List.dropWhile_append, hdw]
          simp [List.dropWhile_cons_of_pos hd2]
        rw [g1, g2]
      · have g1 : (a1 ++ d1 :: b).dropWhile p = (z :: zs) ++ d1 :: b := by
          rw [List.dropWhile_append, hdw]
          simp
        have g2 : (a1 ++ d2 :: b).dropWhile p = (z :: zs) ++ d2 :: b := by
          rw [List.dropWhile_append, hdw]
          simp
        rw [g1, g2]
        apply ih (z :: zs) b
        have hle1 : (z :: zs).length ≤ a1.length := by
          rw [← hdw]
          exact (List.dropWhile_suffix p).length_le
        have hle2 : a1.length ≤ n := by
          simp only [List.length_append, List.length_cons] at hlen
          omega
        omega

theorem splitAny_no_delim (p : Char → Bool) :
    ∀ (cs : List Char), (∀ c ∈ cs, p c = false) → splitAny p cs = [cs] := by
  intro cs
  induction cs with
  | nil => intro _; rfl
  | cons c cs ih =>
    intro hall
    have hc : p c = false := hall c (List.mem_cons_self c cs)
    simp only [splitAny, hc]
    rw [ih (fun x hx => hall x (List.mem_cons_of_mem c hx))]
    simp [consHead]

theorem splitAny_append_delim (p : Char → Bool) :
    ∀ (a : List Char) (d : Char) (b : List Char), (∀ c ∈ a, p c = false) → p d = true →
      splitAny p (a ++ d :: b) = a :: splitAny p b := by
  intro a
  induction a with
  | nil =>
    intro d b _ hd
    simp [splitAny, hd]
  | cons x a ih =>
    intro d b hall hd
    have hx : p x = false := hall x (List.mem_cons_self x a)
    have hstep : splitAny p ((x :: a) ++ d :: b)
        = consHead x (splitAny p (a ++ d :: b)) := by
      simp [splitAny, hx]
    rw [hstep, ih d b (fun c hc => hall c (List.mem_cons_of_mem x hc)) hd]
    simp [consHead]

theorem textSmiles_eq_spec : ∀ (n : Nat) (cs : List Char), cs.length ≤ n →
    textSmiles cs = textSmilesSpec cs := by
  intro n
  induction n with
  | zero =>
    intro cs hlen
    have h : cs = [] := List.length_eq_zero.mp (Nat.le_zero.mp hlen)
    subst h
    rfl
  | succ n ih =>
    intro cs hlen
    rcases delim_decomp isTextDelim cs with hall | ⟨a, d, b, hcs, ha, hd⟩
    · unfold textSmiles textSmilesSpec
      rw [splitRuns_no_delim isTextDelim cs hall, splitAny_no_delim isTextDelim cs hall]
    · subst hcs
      have hb : b.length ≤ n := by
        simp only [List.length_append, List.length_cons] at hlen
        omega
      unfold textSmiles textSmilesSpec
      rw [splitRuns_append_delim isTextDelim a d b ha hd,
          splitAny_append_delim isTextDelim a d b ha hd,
          normTokens_cons, normTokens_cons]
      have key : normTokens (splitRuns isTextDelim (b.dropWhile isTextDelim))
          = normTokens (splitAny isTextDelim b) := by
        have k1 : textSmiles (b.dropWhile isTextDelim) = textSmiles b := textSmiles_dropWhile b
        have k2 := ih b hb
        exact k1.trans k2
      rw [key]

/-- C5: the free-text Candidate List is the input split on newlines and
commas with each piece trimmed and empty pieces dropped (the code's
run-based split agrees with splitting at every single newline or comma);
the result is invariant under leading/trailing whitespace and under
exchanging the two delimiters; and "CCC, CCO\nCNC" yields exactly
["CCC", "CCO", "CNC"]. -/
theorem claim_C5 :
    (∀ s, textSmiles s = textSmilesSpec s)
    ∧ (∀ s w1 w2, w1.all isJsSpace = true → w2.all isJsSpace = true →
        textSmiles (w1 ++ s ++ w2) = textSmiles s)
    ∧ (∀ a b, textSmiles (a ++ ',' :: b) = textSmiles (a ++ '\n' :: b))
    ∧ textSmiles (("CCC, CCO\nCNC").data) = [("CCC").data, ("CCO").data, ("CNC").data] := by
  refine ⟨?_, ?_, ?_, by decide⟩
  · intro s
    exact textSmiles_eq_spec s.length s (Nat.le_refl _)
  · intro s w1 w2 h1 h2
    rw [List.append_assoc, textSmiles_ws_prefix w1 h1 (s ++ w2), textSmiles_ws_suffix w2 h2 s]
  · intro a b
    unfold textSmiles
    rw [splitRuns_delim_swap isTextDelim ',' '\n' (by decide) (by decide) a.length a b
      (Nat.le_refl _)]

theorem claim_C5_witness :
    textSmiles (((" ").data ++ ("CC").data) ++ ("\n").data) = textSmiles (("CC").data) :=
  claim_C5.2.1 (("CC").data) ((" ").data) (("\n").data) (by decide) (by decide)

theorem claim_C2_amended_witness :
    structStartIndex [[("SMILES").data], [("CCO").data]] = 1 :=
  (claim_C2_amended.1 [[("SMILES").data], [("CCO").data]]).mpr (by decide)

theorem claim_C3_witness : 2 < (("CCCC").data).length :=
  claim_C3.2.1 [[("CCCC").data]] (("CCCC").data) (by decide)

theorem claim_C10_witness :
    extractStructured [[("SMILES").data, ("junk").data], [("CCO").data]]
      = extractFallback (("SMILES,extra\nCCO;tail").data) :=
  claim_C10 [[("SMILES").data, ("junk").data], [("CCO").data]]
    (("SMILES,extra\nCCO;tail").data) (by decide)
